import Mathlib

/-!
# exifreader: a shallow embedding of `main.go`

The program walks a directory tree with `filepath.Walk`, runs a callback on
every non-directory entry whose lower-cased extension equals a target
extension, and collects the values of the successful callback runs.  The
callback used by `main` is `ReadTags`, which opens a file, decodes its EXIF
block and copies a handful of fields into an `ImageInfo` record.

Library code the program calls (`path/filepath`, `strings`, `os`,
`encoding/json`, `goexif`) is modelled from its documented behaviour on a
Unix system; every such definition says so in its doc comment.  The case table
behind `unicode.ToLower` is a parameter of the model, `UnicodeTables`: the
general results hold for every table, and the evaluations on concrete trees
name the table they use.
-/

namespace ExifReader

set_option autoImplicit false
set_option maxHeartbeats 4000000
set_option maxRecDepth 100000

/-! ## Go values -/

/-- A Go `error` value that is not nil.  `SkipDir` and `SkipAll` are the two
sentinel values of `path/filepath`; every other error is identified by its
message. -/
inductive GoError where
  | SkipDir
  | SkipAll
  | msg (text : String)
  deriving DecidableEq, Repr

deriving instance DecidableEq for Except

/-- A Go slice, as far as this program can tell slices apart: `none` is the nil
slice, `some l` a non-nil slice with the elements `l`. -/
abbrev Slice (T : Type) := Option (List T)

/-- The elements of a slice; the nil slice has none. -/
def Slice.toList {T : Type} : Slice T → List T
  | none => []
  | some l => l

/-- Go's `append(s, x)`: the result is never the nil slice. -/
def Slice.append {T : Type} (s : Slice T) (x : T) : Slice T :=
  some (Slice.toList s ++ [x])

/-! ## `strings` and `path/filepath` on Unix paths -/

/-- What Go's `unicode.ToLower` does on the ASCII range, as its source spells
out: `A`..`Z` go to `a`..`z`, every other character is returned as it is. -/
def asciiToLower (c : Char) : Char :=
  if 'A' ≤ c ∧ c ≤ 'Z' then Char.ofNat (c.toNat + 32) else c

/-- The Go library's package `unicode`, as far as the program uses it.  The
rune map `unicode.ToLower` is read off the library's table of case ranges,
which covers every cased letter of Unicode and changes with the Unicode version
of the Go release; the table is not part of this repository, so the map is a
parameter.  Its values on ASCII do not come from the table and are fixed by
`ascii`. -/
structure UnicodeTables where
  ToLower : Char → Char
  ascii : ∀ c : Char, c.toNat < 128 → ToLower c = asciiToLower c

/-- Go's `strings.ToLower` on a string of valid UTF-8: `unicode.ToLower`
applied to every rune. -/
def ToLower (unicode : UnicodeTables) (s : String) : String :=
  String.mk (s.data.map unicode.ToLower)

/-- Go's `os.IsPathSeparator` on Unix. -/
def IsPathSeparator (c : Char) : Bool :=
  c == '/'

/-- The loop of `filepath.Ext`, scanning the path from its last character:
`rev` is the not yet scanned part, reversed, and `acc` the scanned suffix. -/
def extLoop : List Char → List Char → List Char
  | [], _ => []
  | c :: rev, acc =>
    if IsPathSeparator c then []
    else if c == '.' then c :: acc
    else extLoop rev (c :: acc)

/-- Go's `filepath.Ext`: the suffix beginning at the final dot in the final
element of the path, empty if there is no dot. -/
def Ext (path : String) : String :=
  String.mk (extLoop path.data.reverse [])

/-- First loop of `filepath.Base`: strip trailing separators (`rev` is the path
reversed). -/
def stripTrailing : List Char → List Char
  | [] => []
  | c :: rev => if IsPathSeparator c then stripTrailing rev else c :: rev

/-- Second loop of `filepath.Base`: the last element, read off the reversed
path up to the first separator. -/
def lastElement : List Char → List Char → List Char
  | [], acc => acc
  | c :: rev, acc => if IsPathSeparator c then acc else lastElement rev (c :: acc)

/-- Go's `filepath.Base` on Unix (no volume names). -/
def Base (path : String) : String :=
  if path = "" then "."
  else
    let e := lastElement (stripTrailing path.data.reverse) []
    if e = [] then "/" else String.mk e

/-! ## The directory tree seen by `filepath.Walk` -/

/-- Go's `fs.FileInfo`, reduced to the one method the program calls. -/
structure FileInfo where
  IsDir : Bool
  deriving DecidableEq, Repr

mutual
/-- One entry of the tree, labelled with the path under which `filepath.Walk`
reports it, together with what `lstat` and the directory listing say about it.
Access errors carry the message of the operating-system error, which is never
one of the `filepath` sentinels. -/
inductive Entry where
  /-- `lstat` succeeds and the entry is not a directory. -/
  | file (path : String)
  /-- `lstat` succeeds, the entry is a directory and its listing succeeds. -/
  | dir (path : String) (children : Entries)
  /-- `lstat` succeeds, the entry is a directory, reading its names fails. -/
  | unreadable (path : String) (err : String)
  /-- `lstat` fails. -/
  | lstatErr (path : String) (err : String)
/-- The entries of a directory in the order in which `Walk` visits them. -/
inductive Entries where
  | nil
  | cons (head : Entry) (tail : Entries)
end

/-- The `(info, err)` pair that `Walk` hands to its callback: the file info
with a nil error, the info of a directory with the error of listing it, or a
nil info with the error of `lstat`. -/
inductive WalkArg where
  | ok (info : FileInfo)
  | listErr (info : FileInfo) (err : GoError)
  | statErr (err : GoError)
  deriving DecidableEq, Repr

/-- Go's `filepath.WalkFunc`, with the state the closure captures passed
explicitly. -/
abbrev WalkFunc (σ : Type) := String → WalkArg → σ → Option GoError × σ

/-- Whether `lstat` reports the entry as a directory (`false` when `lstat`
fails). -/
def Entry.isDir : Entry → Bool
  | .dir _ _ => true
  | .unreadable _ _ => true
  | _ => false

mutual
/-- The unexported `walk` of `path/filepath`.  For an entry whose `lstat`
failed the caller invokes the callback itself; that call is the last case. -/
def walk {σ : Type} (walkFn : WalkFunc σ) : Entry → σ → Option GoError × σ
  | .file path, s => walkFn path (.ok ⟨false⟩) s
  | .unreadable path e, s => walkFn path (.listErr ⟨true⟩ (.msg e)) s
  | .dir path names, s =>
    match walkFn path (.ok ⟨true⟩) s with
    | (some err1, s1) => (some err1, s1)
    | (none, s1) => walkNames walkFn names s1
  | .lstatErr path e, s => walkFn path (.statErr (.msg e)) s
/-- The `for _, name := range names` loop of `walk`. -/
def walkNames {σ : Type} (walkFn : WalkFunc σ) : Entries → σ → Option GoError × σ
  | .nil, s => (none, s)
  | .cons (.lstatErr path e) rest, s =>
    match walkFn path (.statErr (.msg e)) s with
    | (some err, s1) =>
      if err ≠ GoError.SkipDir then (some err, s1) else walkNames walkFn rest s1
    | (none, s1) => walkNames walkFn rest s1
  | .cons entry rest, s =>
    match walk walkFn entry s with
    | (some err, s1) =>
      if !entry.isDir || err ≠ GoError.SkipDir then (some err, s1)
      else walkNames walkFn rest s1
    | (none, s1) => walkNames walkFn rest s1
end

/-- Go's `filepath.Walk`: the sentinels `SkipDir` and `SkipAll` are not
returned to the caller. -/
def Walk {σ : Type} (walkFn : WalkFunc σ) (root : Entry) (s : σ) : Option GoError × σ :=
  match walk walkFn root s with
  | (some GoError.SkipDir, s1) => (none, s1)
  | (some GoError.SkipAll, s1) => (none, s1)
  | r => r

/-! ## `TraverseFiles` -/

/-- The source's `FileCallback[T]`: a path to a value and an error (`none` is
the nil error).  The state `σ` stands for whatever the callback reads and
changes outside its arguments. -/
abbrev FileCallback (T σ : Type) := String → σ → (T × Option GoError) × σ

/-- The closure `TraverseFiles` passes to `filepath.Walk`.  Its captured
variable `data` and the callback's state make up the state of the walk.  The
diagnostic line printed on an access error is not part of the model. -/
def traverseFn {T σ : Type} (unicode : UnicodeTables) (extension : String)
    (fileCallback : FileCallback T σ) : WalkFunc (Slice T × σ)
  | _, .statErr err, st => (some err, st)
  | _, .listErr _ err, st => (some err, st)
  | path, .ok info, (data, s) =>
    if !info.IsDir then
      let fileExt := Ext path
      if ToLower unicode fileExt = extension then
        match fileCallback path s with
        | ((coords, none), s1) => (none, (Slice.append data coords, s1))
        | ((_, some _), s1) => (none, (data, s1))
      else (none, (data, s))
    else (none, (data, s))

/-- The source's `TraverseFiles`: the slice it returns and the state the
callback leaves behind.  `tree` is what the walk finds at the root path. -/
def TraverseFiles {T σ : Type} (unicode : UnicodeTables) (tree : Entry) (extension : String)
    (fileCallback : FileCallback T σ) (s : σ) : Slice T × σ :=
  let r := Walk (traverseFn unicode extension fileCallback) tree (none, s)
  r.2

/-! ## `ReadTags` -/

/-- A Go `float64`, named by its IEEE-754 bit pattern; `0` is `+0.0`.  The
program only moves these values around. -/
abbrev Float64 := Nat

/-- A Go `time.Time`, as nanoseconds since the zero time; `0` is the zero
value of the type. -/
abbrev Time := Int

/-- The source's `ImageInfo`. -/
structure ImageInfo where
  Path : String
  Filename : String
  Lat : Float64
  Lng : Float64
  Altitude : String
  Date : Time
  Model : String
  PixelXDimension : String
  PixelYDimension : String
  deriving DecidableEq, Repr

/-- The type `exif.FieldName` of goexif, a string. -/
abbrev FieldName := String

/-- The constant `exif.Model`. -/
def exifModel : FieldName := "Model"
/-- The constant `exif.PixelXDimension`. -/
def exifPixelXDimension : FieldName := "PixelXDimension"
/-- The constant `exif.PixelYDimension`. -/
def exifPixelYDimension : FieldName := "PixelYDimension"
/-- The constant `exif.GPSAltitude`. -/
def exifGPSAltitude : FieldName := "GPSAltitude"

/-- A decoded metadata block (`*exif.Exif`), given by what its three methods
answer.  `Get` stands for `x.Get(name)` followed by `String()` on the tag. -/
structure Exif where
  Get : FieldName → Except GoError String
  DateTime : Except GoError Time
  LatLong : Except GoError (Float64 × Float64)

/-- An opened file (`*os.File`), given by what `exif.Decode` makes of its
bytes. -/
structure File where
  Decode : Except GoError Exif

/-- The part of the file system `ReadTags` reads: what `os.Open` answers for a
path. -/
structure FS where
  Open : String → Except GoError File

/-- Go's `os.Open`, with the process's table of open files passed explicitly:
a successful open adds a handle, named by the path, and a failed one adds
nothing. -/
def osOpen (fs : FS) (path : String) (openFiles : List String) :
    Except GoError File × List String :=
  match fs.Open path with
  | .ok f => (.ok f, openFiles ++ [path])
  | .error err => (.error err, openFiles)

/-- The source's `ReadTags`, a `FileCallback` whose state is the table of open
files. -/
def ReadTags (fs : FS) : FileCallback ImageInfo (List String) := fun path openFiles =>
  let (f, openFiles) := osOpen fs path openFiles
  let filename := Base path
  let data : ImageInfo :=
    { Path := path, Filename := filename, Lat := 0, Lng := 0, Altitude := "", Date := 0,
      Model := "", PixelXDimension := "", PixelYDimension := "" }
  match f with
  | .error err => ((data, some err), openFiles)
  | .ok f =>
    match f.Decode with
    | .error err => ((data, some err), openFiles)
    | .ok x =>
      let data := match x.Get exifModel with
        | .ok camModel => { data with Model := camModel }
        | .error _ => data
      let data := match x.Get exifPixelXDimension with
        | .ok sizeX => { data with PixelXDimension := sizeX }
        | .error _ => data
      let data := match x.Get exifPixelYDimension with
        | .ok sizeY => { data with PixelYDimension := sizeY }
        | .error _ => data
      match x.DateTime with
      | .error err => ((data, some err), openFiles)
      | .ok date =>
        let data := { data with Date := date }
        let data := match x.Get exifGPSAltitude with
          | .ok altitude => { data with Altitude := altitude }
          | .error _ => data
        match x.LatLong with
        | .error err => ((data, some err), openFiles)
        | .ok (lat, lng) =>
          let data := { data with Lat := lat, Lng := lng }
          ((data, none), openFiles)

/-! ## `encoding/json` and `main` -/

/-- The encoders of `encoding/json` for the three kinds of leaf value in an
`ImageInfo`.  Strings always encode; a float (`NaN`, infinities) or a time
(year out of range) may be refused. -/
structure JsonEnc where
  string : String → String
  float : Float64 → Except GoError String
  time : Time → Except GoError String

/-- The fields of `ImageInfo` as `encoding/json` sees them: the key from each
field's `json` struct tag, in declaration order, with the encoded value. -/
def ImageInfo.jsonFields (enc : JsonEnc) (r : ImageInfo) :
    List (String × Except GoError String) :=
  [ ("path", .ok (enc.string r.Path)),
    ("file_name", .ok (enc.string r.Filename)),
    ("lat", enc.float r.Lat),
    ("lng", enc.float r.Lng),
    ("altitude", .ok (enc.string r.Altitude)),
    ("date", enc.time r.Date),
    ("model", .ok (enc.string r.Model)),
    ("sizeX", .ok (enc.string r.PixelXDimension)),
    ("sizeY", .ok (enc.string r.PixelYDimension)) ]

/-- One `"key":value` member of a JSON object. -/
def jsonMember : String × Except GoError String → Except GoError String
  | (key, .ok value) => .ok ("\"" ++ key ++ "\":" ++ value)
  | (_, .error err) => .error err

/-- The encodings of the items of a list, or the first error among them. -/
def encodeAll {T : Type} (elem : T → Except GoError String) :
    List T → Except GoError (List String)
  | [] => .ok []
  | x :: xs =>
    match elem x with
    | .error err => .error err
    | .ok item =>
      match encodeAll elem xs with
      | .error err => .error err
      | .ok items => .ok (item :: items)

/-- Go's `json.Marshal` on a struct: an object with one member per field. -/
def marshalImageInfo (enc : JsonEnc) (r : ImageInfo) : Except GoError String :=
  match encodeAll jsonMember (ImageInfo.jsonFields enc r) with
  | .ok members => .ok ("\x7b" ++ ",".intercalate members ++ "\x7d")
  | .error err => .error err

/-- Go's `json.Marshal` on a slice: the nil slice encodes as `null`, every
other slice as an array. -/
def marshalSlice {T : Type} (elem : T → Except GoError String) :
    Slice T → Except GoError String
  | none => .ok "null"
  | some l =>
    match encodeAll elem l with
    | .ok items => .ok ("[" ++ ",".intercalate items ++ "]")
    | .error err => .error err

/-- What the process sees of its surroundings: the file contents, the tree the
walk finds at a root path, and whether writing a file works. -/
structure System where
  fs : FS
  tree : String → Entry
  WriteFile : String → String → Option GoError

/-- How a run of `main` ends. -/
inductive Outcome where
  /-- `os.Args[1]` is out of range. -/
  | panic
  /-- `log.Fatal(err)`. -/
  | fatal (err : GoError)
  /-- The file `name` has been written with `content`. -/
  | wrote (name : String) (content : String)
  deriving DecidableEq, Repr

/-- The source's `main`; `args` is `os.Args`.  The line printed with the
number of records and the elapsed time is not part of the model. -/
def main (unicode : UnicodeTables) (sys : System) (enc : JsonEnc) (args : List String) :
    Outcome :=
  match args with
  | _ :: dir :: _ =>
    let data := (TraverseFiles unicode (sys.tree dir) ".jpg" (ReadTags sys.fs) []).1
    match marshalSlice (marshalImageInfo enc) data with
    | .error err => .fatal err
    | .ok b =>
      match sys.WriteFile "outdata.json" b with
      | some err => .fatal err
      | none => .wrote "outdata.json" b
  | _ => .panic

/-! ## The walk as a sequence of visits -/

/-- One call of the walk's callback: on a non-directory, on a directory, or
with an access error. -/
inductive Visit where
  | file (path : String)
  | dir (path : String)
  | failed (path : String) (err : String)
  deriving DecidableEq, Repr

mutual
/-- The entries below and including an entry in depth-first pre-order: the
order of `Walk` when no visit stops it. -/
def Entry.visits : Entry → List Visit
  | .file path => [.file path]
  | .dir path names => .dir path :: Entries.visits names
  | .unreadable path e => [.failed path e]
  | .lstatErr path e => [.failed path e]
/-- The visits of a directory's entries, one entry after the other. -/
def Entries.visits : Entries → List Visit
  | .nil => []
  | .cons entry rest => Entry.visits entry ++ Entries.visits rest
end

/-- A visit with an access error. -/
def Visit.isFailed : Visit → Bool
  | .failed _ _ => true
  | _ => false

/-- The visits made before the first access error. -/
def beforeError (vs : List Visit) : List Visit :=
  vs.takeWhile (fun v => !v.isFailed)

/-- The visits made after the first access error, had the walk gone on. -/
def afterError (vs : List Visit) : List Visit :=
  (vs.dropWhile (fun v => !v.isFailed)).tail

/-- The first access error among the visits. -/
def firstError : List Visit → Option GoError
  | [] => none
  | .failed _ e :: _ => some (.msg e)
  | _ :: vs => firstError vs

/-- The paths of the non-directory visits. -/
def filePaths : List Visit → List String
  | [] => []
  | .file path :: vs => path :: filePaths vs
  | _ :: vs => filePaths vs

/-- The paths of the visited directories. -/
def dirPaths : List Visit → List String
  | [] => []
  | .dir path :: vs => path :: dirPaths vs
  | _ :: vs => dirPaths vs

/-- The test `TraverseFiles` applies to a non-directory path. -/
def extMatches (unicode : UnicodeTables) (extension : String) (path : String) : Bool :=
  decide (ToLower unicode (Ext path) = extension)

/-- The values of the successful runs of a callback over a list of paths, in
the order of the list, and the state after the last run.  A failed run adds
no value and the runs go on. -/
def successes {T σ : Type} (fileCallback : FileCallback T σ) :
    List String → σ → List T × σ
  | [], s => ([], s)
  | path :: rest, s =>
    let r := fileCallback path s
    let later := successes fileCallback rest r.2
    match r.1.2 with
    | none => (r.1.1 :: later.1, later.2)
    | some _ => later

/-- The slice with the given elements that `append` builds from the nil
slice. -/
def Slice.ofAppends {T : Type} : List T → Slice T
  | [] => none
  | l => some l

/-- The walk of `TraverseFiles` replayed on a sequence of visits: it stops at
the first access error and runs the callback on the matching files before
it. -/
def runVisits {T σ : Type} (unicode : UnicodeTables) (extension : String)
    (fileCallback : FileCallback T σ) :
    List Visit → Slice T × σ → Option GoError × (Slice T × σ)
  | [], st => (none, st)
  | .failed _ e :: _, st => (some (.msg e), st)
  | .dir _ :: vs, st => runVisits unicode extension fileCallback vs st
  | .file path :: vs, st =>
    if extMatches unicode extension path then
      match fileCallback path st.2 with
      | ((v, none), s1) => runVisits unicode extension fileCallback vs (Slice.append st.1 v, s1)
      | ((_, some _), s1) => runVisits unicode extension fileCallback vs (st.1, s1)
    else runVisits unicode extension fileCallback vs st

/-- The slice after appending the elements of a list one by one. -/
def Slice.appendAll {T : Type} (data : Slice T) : List T → Slice T
  | [] => data
  | l => some (Slice.toList data ++ l)

/-- A callback instrumented with a log of the paths it is run on. -/
def traced {T σ : Type} (fileCallback : FileCallback T σ) :
    FileCallback T (List String × σ) := fun path st =>
  let r := fileCallback path st.2
  (r.1, (st.1 ++ [path], r.2))

mutual
/-- The tree once its inaccessible entries can be accessed: `found path` is
what is then found at `path`; every other entry is unchanged. -/
def Entry.repair (found : String → Entry) : Entry → Entry
  | .file path => .file path
  | .dir path names => .dir path (Entries.repair found names)
  | .unreadable path _ => found path
  | .lstatErr path _ => found path
/-- The entries of a directory, each of them repaired. -/
def Entries.repair (found : String → Entry) : Entries → Entries
  | .nil => .nil
  | .cons entry rest => .cons (Entry.repair found entry) (Entries.repair found rest)
end

/-! ## Example inputs -/

/-- The table under which only ASCII letters have a lower case: it agrees with
`unicode.ToLower` on every ASCII character. -/
def asciiTable : UnicodeTables where
  ToLower := asciiToLower
  ascii := fun _ _ => rfl

/-- A table that, beyond ASCII, lower-cases the capital letters of Latin-1
(`À` to `Þ` without the sign `×`), as `unicode.ToLower` does; it is used on
paths whose characters are ASCII or Latin-1. -/
def latin1Table : UnicodeTables where
  ToLower := fun c =>
    if c.toNat < 128 then asciiToLower c
    else if 192 ≤ c.toNat ∧ c.toNat ≤ 222 ∧ c.toNat ≠ 215 then Char.ofNat (c.toNat + 32)
    else c
  ascii := by
    intro c h
    simp [h]

/-- Whether every non-directory entry of the tree has an extension of ASCII
characters only. -/
def Entry.asciiExts (tree : Entry) : Bool :=
  (filePaths tree.visits).all (fun path => (Ext path).data.all (fun c => decide (c.toNat < 128)))

/-- A callback that always succeeds and returns the path it is given. -/
def pathCallback : FileCallback String Unit := fun path s => ((path, none), s)

/-- A callback that fails on `r/bad.jpg` and succeeds on every other path. -/
def pickyCallback : FileCallback String Nat := fun path n =>
  ((path, if path = "r/bad.jpg" then some (.msg "corrupt") else none), n + 1)

/-- A tree without access errors: a matching file in upper case, a directory
whose name matches, a file on which `pickyCallback` fails, a file with another
extension and a matching file in a subdirectory. -/
def sampleTree : Entry :=
  .dir "r" (.cons (.file "r/A.JPG") (.cons (.dir "r/album.jpg" (.cons (.file "r/album.jpg/c.jpg") .nil))
    (.cons (.file "r/bad.jpg") (.cons (.file "r/notes.txt") (.cons (.file "r/z.jpg") .nil)))))

/-- A tree in which `lstat` fails on `r/b`, between two matching files. -/
def brokenTree : Entry :=
  .dir "r" (.cons (.file "r/a.jpg") (.cons (.lstatErr "r/b" "permission denied")
    (.cons (.file "r/c.jpg") .nil)))

/-- A tree without access errors whose two files have the extension `.jpé`,
one of them in upper case. -/
def accentTree : Entry :=
  .dir "r" (.cons (.file "r/a.JPÉ") (.cons (.file "r/b.jpé") .nil))

/-- The tree `accentTree` with an entry between the two files on which `lstat`
fails. -/
def brokenAccentTree : Entry :=
  .dir "r" (.cons (.file "r/a.JPÉ") (.cons (.lstatErr "r/b" "permission denied")
    (.cons (.file "r/c.jpé") .nil)))

/-- The value of a best-effort lookup: the decoder's string, or the empty
string the record field is left at when the lookup fails. -/
def orEmpty : Except GoError String → String
  | .ok value => value
  | .error _ => ""

/-- A metadata block with every field present. -/
def fullExif : Exif where
  Get := fun name =>
    if name = exifModel then .ok "Canon"
    else if name = exifPixelXDimension then .ok "4000"
    else if name = exifPixelYDimension then .ok "3000"
    else if name = exifGPSAltitude then .ok "100/1"
    else .error (.msg "tag missing")
  DateTime := .ok 1700000000
  LatLong := .ok (4633570863741468672, 4625759767262920704)

/-- The block `fullExif` without the camera model. -/
def noModelExif : Exif where
  Get := fun name =>
    if name = exifModel then .error (.msg "tag missing") else fullExif.Get name
  DateTime := fullExif.DateTime
  LatLong := fullExif.LatLong

/-- The block `fullExif` without a capture date. -/
def noDateExif : Exif where
  Get := fullExif.Get
  DateTime := .error (.msg "no date")
  LatLong := fullExif.LatLong

/-- The block `fullExif` without coordinates. -/
def noGpsExif : Exif where
  Get := fullExif.Get
  DateTime := fullExif.DateTime
  LatLong := .error (.msg "no GPS")

/-- A file system with the files of the directories `r` and `junk`: files
with and without a metadata block, and one that cannot be opened. -/
def sampleFS : FS where
  Open := fun path =>
    if path = "r/full.jpg" then .ok ⟨.ok fullExif⟩
    else if path = "r/locked.jpg" then .error (.msg "permission denied")
    else if path = "r/nodate.jpg" then .ok ⟨.ok noDateExif⟩
    else if path = "r/nogps.jpg" then .ok ⟨.ok noGpsExif⟩
    else if path = "r/nomodel.jpg" then .ok ⟨.ok noModelExif⟩
    else if path = "r/text.jpg" then .ok ⟨.error (.msg "no exif")⟩
    else if path = "junk/nodate.jpg" then .ok ⟨.ok noDateExif⟩
    else if path = "junk/text.jpg" then .ok ⟨.error (.msg "no exif")⟩
    else .error (.msg "no such file")

/-- The directory `r` of `sampleFS`. -/
def photoTree : Entry :=
  .dir "r" (.cons (.file "r/full.jpg") (.cons (.file "r/locked.jpg") (.cons (.file "r/nodate.jpg")
    (.cons (.file "r/nogps.jpg") (.cons (.file "r/nomodel.jpg") (.cons (.file "r/text.jpg") .nil))))))

/-- Encoders that quote strings and write a fixed text for numbers and
times. -/
def plainEnc : JsonEnc where
  string := fun s => "\"" ++ s ++ "\""
  float := fun _ => .ok "0"
  time := fun _ => .ok "\"t\""

/-- A system whose directory `empty` has no entries and whose directory `junk`
holds a text file and two `.jpg` files on which `ReadTags` fails. -/
def sampleSystem : System where
  fs := sampleFS
  tree := fun dir =>
    if dir = "empty" then .dir "empty" .nil
    else if dir = "junk" then
      .dir "junk" (.cons (.file "junk/nodate.jpg") (.cons (.file "junk/notes.txt")
        (.cons (.file "junk/text.jpg") .nil)))
    else photoTree
  WriteFile := fun _ _ => none

/-! ## Lemmas on the walk -/

section WalkLemmas

variable {T σ : Type}

theorem Slice.appendAll_append (data : Slice T) (v : T) (l : List T) :
    Slice.appendAll (Slice.append data v) l = Slice.appendAll data (v :: l) := by
  cases l <;> simp [Slice.appendAll, Slice.append, Slice.toList]

theorem Slice.appendAll_none (l : List T) :
    Slice.appendAll (none : Slice T) l = Slice.ofAppends l := by
  cases l <;> simp [Slice.appendAll, Slice.ofAppends, Slice.toList]

theorem Slice.toList_ofAppends (l : List T) : Slice.toList (Slice.ofAppends l) = l := by
  cases l <;> simp [Slice.ofAppends, Slice.toList]

theorem runVisits_append (unicode : UnicodeTables) (extension : String) (cb : FileCallback T σ)
    (a b : List Visit) (st : Slice T × σ) :
    runVisits unicode extension cb (a ++ b) st =
      match runVisits unicode extension cb a st with
      | (some err, st1) => (some err, st1)
      | (none, st1) => runVisits unicode extension cb b st1 := by
  induction a generalizing st with
  | nil => simp [runVisits]
  | cons v vs ih =>
    cases v with
    | failed path e => simp [runVisits]
    | dir path => simpa [runVisits] using ih st
    | file path =>
      simp only [List.cons_append, runVisits]
      split
      · split <;> exact ih _
      · exact ih st

theorem runVisits_fst (unicode : UnicodeTables) (extension : String) (cb : FileCallback T σ)
    (vs : List Visit) (st : Slice T × σ) :
    (runVisits unicode extension cb vs st).1 = firstError vs := by
  induction vs generalizing st with
  | nil => rfl
  | cons v vs ih =>
    cases v with
    | failed path e => rfl
    | dir path => simpa [runVisits, firstError] using ih st
    | file path =>
      simp only [runVisits, firstError]
      split
      · split <;> exact ih _
      · exact ih st

theorem firstError_ne_SkipDir (vs : List Visit) :
    firstError vs ≠ some GoError.SkipDir := by
  induction vs with
  | nil => simp [firstError]
  | cons v vs ih => cases v <;> simp [firstError, ih]

theorem firstError_ne_SkipAll (vs : List Visit) :
    firstError vs ≠ some GoError.SkipAll := by
  induction vs with
  | nil => simp [firstError]
  | cons v vs ih => cases v <;> simp [firstError, ih]

theorem runVisits_snd (unicode : UnicodeTables) (extension : String) (cb : FileCallback T σ)
    (vs : List Visit) (data : Slice T) (s : σ) :
    (runVisits unicode extension cb vs (data, s)).2 =
      (Slice.appendAll data
          (successes cb ((filePaths (beforeError vs)).filter (extMatches unicode extension)) s).1,
        (successes cb ((filePaths (beforeError vs)).filter (extMatches unicode extension)) s).2) := by
  induction vs generalizing data s with
  | nil => rfl
  | cons v vs ih =>
    cases v with
    | failed path e => rfl
    | dir path => simpa [runVisits, beforeError, filePaths, Visit.isFailed] using ih data s
    | file path =>
      simp only [runVisits, beforeError, List.takeWhile, Visit.isFailed, filePaths,
        Bool.not_false, List.filter]
      cases hm : extMatches unicode extension path with
      | false => simpa [beforeError] using ih data s
      | true =>
        simp only [if_true, successes]
        rcases hcb : cb path s with ⟨⟨v, _ | err⟩, s1⟩
        · simp only []
          rw [ih, Slice.appendAll_append]
          rfl
        · simp only []
          rw [ih]
          rfl

theorem walkNames_step (unicode : UnicodeTables) (extension : String) (cb : FileCallback T σ)
    (entry : Entry) (rest : Entries) (st : Slice T × σ)
    (h1 : walk (traverseFn unicode extension cb) entry st = runVisits unicode extension cb entry.visits st)
    (h2 : ∀ st1, walkNames (traverseFn unicode extension cb) rest st1 =
      runVisits unicode extension cb rest.visits st1) :
    walkNames (traverseFn unicode extension cb) (.cons entry rest) st =
      runVisits unicode extension cb (Entries.visits (.cons entry rest)) st := by
  have hne : ∀ err s1, runVisits unicode extension cb entry.visits st = (some err, s1) →
      err ≠ GoError.SkipDir := by
    intro err s1 hr hc
    have hf := runVisits_fst unicode extension cb entry.visits st
    rw [hr] at hf
    exact firstError_ne_SkipDir entry.visits (by rw [← hf, hc])
  cases entry with
  | lstatErr path e =>
    rw [Entries.visits, Entry.visits]
    simp [walkNames, traverseFn, runVisits]
  | file path =>
    simp only [walkNames]
    rw [h1, Entries.visits, runVisits_append]
    rcases hr : runVisits unicode extension cb (Entry.visits (.file path)) st with ⟨_ | err, s1⟩
    · simp [h2]
    · simp [hne err s1 hr]
  | dir path names =>
    simp only [walkNames]
    rw [h1, Entries.visits, runVisits_append]
    rcases hr : runVisits unicode extension cb (Entry.visits (.dir path names)) st with ⟨_ | err, s1⟩
    · simp [h2]
    · simp [hne err s1 hr]
  | unreadable path e =>
    simp only [walkNames]
    rw [h1, Entries.visits, runVisits_append]
    rcases hr : runVisits unicode extension cb (Entry.visits (.unreadable path e)) st with ⟨_ | err, s1⟩
    · simp [h2]
    · simp [hne err s1 hr]

mutual
theorem walk_eq_runVisits (unicode : UnicodeTables) (extension : String) (cb : FileCallback T σ) :
    ∀ (entry : Entry) (st : Slice T × σ),
      walk (traverseFn unicode extension cb) entry st = runVisits unicode extension cb entry.visits st
  | .file path, (data, s) => by
    simp only [walk, traverseFn, Entry.visits, runVisits, extMatches, Bool.not_false,
      if_true, decide_eq_true_eq]
  | .unreadable path e, st => by
    simp [walk, traverseFn, Entry.visits, runVisits]
  | .lstatErr path e, st => by
    simp [walk, traverseFn, Entry.visits, runVisits]
  | .dir path names, (data, s) => by
    simp only [walk, traverseFn, Entry.visits, runVisits]
    simpa using walkNames_eq_runVisits unicode extension cb names (data, s)
theorem walkNames_eq_runVisits (unicode : UnicodeTables) (extension : String) (cb : FileCallback T σ) :
    ∀ (names : Entries) (st : Slice T × σ),
      walkNames (traverseFn unicode extension cb) names st = runVisits unicode extension cb names.visits st
  | .nil, st => by simp [walkNames, Entries.visits, runVisits]
  | .cons entry rest, st =>
    walkNames_step unicode extension cb entry rest st (walk_eq_runVisits unicode extension cb entry st)
      (fun st1 => walkNames_eq_runVisits unicode extension cb rest st1)
end

/-- The characterisation of `TraverseFiles` every result below rests on: the
callback runs, in visit order, on the matching non-directory entries visited
before the first access error, and on nothing else. -/
theorem TraverseFiles_eq (unicode : UnicodeTables) (tree : Entry) (extension : String) (cb : FileCallback T σ)
    (s : σ) :
    TraverseFiles unicode tree extension cb s =
      (Slice.ofAppends
          (successes cb
            ((filePaths (beforeError tree.visits)).filter (extMatches unicode extension)) s).1,
        (successes cb
            ((filePaths (beforeError tree.visits)).filter (extMatches unicode extension)) s).2) := by
  have hw : (Walk (traverseFn unicode extension cb) tree ((none : Slice T), s)).2 =
      (walk (traverseFn unicode extension cb) tree ((none : Slice T), s)).2 := by
    unfold Walk
    split <;> simp_all
  unfold TraverseFiles
  simp only [hw, walk_eq_runVisits, runVisits_snd, Slice.appendAll_none]

theorem beforeError_eq_self (vs : List Visit) (h : ∀ v ∈ vs, v.isFailed = false) :
    beforeError vs = vs := by
  unfold beforeError
  rw [List.takeWhile_eq_self_iff]
  intro v hv
  simp [h v hv]

theorem beforeError_append_failed (pre post : List Visit) (path err : String)
    (h : ∀ v ∈ pre, v.isFailed = false) :
    beforeError (pre ++ Visit.failed path err :: post) = pre := by
  induction pre with
  | nil => simp [beforeError, Visit.isFailed]
  | cons v vs ih =>
    have hv : v.isFailed = false := h v (List.mem_cons_self _ _)
    have ih1 := ih (fun w hw => h w (List.mem_cons_of_mem _ hw))
    simp only [beforeError] at ih1
    simp [beforeError, hv, ih1]

theorem beforeError_append_of_ok (pre rest : List Visit)
    (h : ∀ v ∈ pre, v.isFailed = false) :
    beforeError (pre ++ rest) = pre ++ beforeError rest := by
  induction pre with
  | nil => rfl
  | cons v vs ih =>
    have hv : v.isFailed = false := h v (List.mem_cons_self _ _)
    have ih1 := ih (fun w hw => h w (List.mem_cons_of_mem _ hw))
    simp only [beforeError] at ih1
    simp [beforeError, hv, ih1]

theorem beforeError_ok (vs : List Visit) : ∀ v ∈ beforeError vs, v.isFailed = false := by
  intro v hv
  have := List.mem_takeWhile_imp hv
  simpa using this

theorem filePaths_append (a b : List Visit) :
    filePaths (a ++ b) = filePaths a ++ filePaths b := by
  induction a with
  | nil => rfl
  | cons v vs ih => cases v <;> simp [filePaths, ih]

theorem successes_append (cb : FileCallback T σ) (a b : List String) (s : σ) :
    successes cb (a ++ b) s =
      ((successes cb a s).1 ++ (successes cb b (successes cb a s).2).1,
        (successes cb b (successes cb a s).2).2) := by
  induction a generalizing s with
  | nil => simp [successes]
  | cons path rest ih =>
    have ih1 := ih (cb path s).2
    simp only [List.cons_append, successes]
    cases (cb path s).1.2 <;> simp [ih1]

theorem successes_traced_log (cb : FileCallback T σ) (paths log : List String) (s : σ) :
    (successes (traced cb) paths (log, s)).2.1 = log ++ paths := by
  induction paths generalizing log s with
  | nil => simp [successes]
  | cons path rest ih =>
    simp only [successes, traced]
    cases (cb path s).1.2 <;> simp [ih]

theorem successes_all_fail (cb : FileCallback T σ) (paths : List String)
    (h : ∀ path ∈ paths, ∀ s, (cb path s).1.2 ≠ none) (s : σ) :
    (successes cb paths s).1 = [] := by
  induction paths generalizing s with
  | nil => rfl
  | cons path rest ih =>
    have h1 := h path (List.mem_cons_self _ _) s
    have ih1 := ih (fun q hq => h q (List.mem_cons_of_mem _ hq)) (cb path s).2
    simp only [successes]
    cases hc : (cb path s).1.2 with
    | none => exact absurd hc h1
    | some err => simpa using ih1

theorem mem_successes (cb : FileCallback T σ) (paths : List String) (s : σ) (v : T)
    (h : v ∈ (successes cb paths s).1) :
    ∃ path ∈ paths, ∃ s1, (cb path s1).1 = (v, none) := by
  induction paths generalizing s with
  | nil => simp [successes] at h
  | cons path rest ih =>
    simp only [successes] at h
    cases hc : (cb path s).1.2 with
    | none =>
      rw [hc] at h
      simp only [List.mem_cons] at h
      rcases h with h | h
      · exact ⟨path, List.mem_cons_self _ _, s, by rw [h, ← hc]⟩
      · obtain ⟨q, hq, s1, h1⟩ := ih _ h
        exact ⟨q, List.mem_cons_of_mem _ hq, s1, h1⟩
    | some err =>
      rw [hc] at h
      obtain ⟨q, hq, s1, h1⟩ := ih _ h
      exact ⟨q, List.mem_cons_of_mem _ hq, s1, h1⟩

theorem beforeError_append_of_failed (a b : List Visit)
    (h : ∃ v ∈ a, v.isFailed = true) : beforeError (a ++ b) = beforeError a := by
  induction a with
  | nil => simp at h
  | cons v vs ih =>
    cases hv : v.isFailed with
    | true => simp [beforeError, hv]
    | false =>
      obtain ⟨w, hw, hwf⟩ := h
      have hmem : w ∈ vs := by
        rcases List.mem_cons.mp hw with rfl | hw1
        · rw [hv] at hwf; exact absurd hwf (by simp)
        · exact hw1
      have ih1 := ih ⟨w, hmem, hwf⟩
      simp only [beforeError] at ih1
      simp [beforeError, hv, ih1]

mutual
theorem Entry.repair_visits_of_ok (found : String → Entry) :
    ∀ (entry : Entry), (∀ v ∈ entry.visits, v.isFailed = false) →
      (entry.repair found).visits = entry.visits
  | .file path, _ => by simp [Entry.repair]
  | .unreadable path e, h => by simp [Entry.visits, Visit.isFailed] at h
  | .lstatErr path e, h => by simp [Entry.visits, Visit.isFailed] at h
  | .dir path names, h => by
    have h1 : ∀ v ∈ names.visits, v.isFailed = false := fun v hv =>
      h v (by rw [Entry.visits]; exact List.mem_cons_of_mem _ hv)
    simp only [Entry.repair, Entry.visits]
    rw [Entries.repair_visits_eq_of_ok found names h1]
theorem Entries.repair_visits_eq_of_ok (found : String → Entry) :
    ∀ (names : Entries), (∀ v ∈ names.visits, v.isFailed = false) →
      (names.repair found).visits = names.visits
  | .nil, _ => by simp [Entries.repair]
  | .cons entry rest, h => by
    have h1 : ∀ v ∈ entry.visits, v.isFailed = false := fun v hv =>
      h v (by rw [Entries.visits]; exact List.mem_append_left _ hv)
    have h2 : ∀ v ∈ rest.visits, v.isFailed = false := fun v hv =>
      h v (by rw [Entries.visits]; exact List.mem_append_right _ hv)
    simp only [Entries.repair, Entries.visits]
    rw [Entry.repair_visits_of_ok found entry h1, Entries.repair_visits_eq_of_ok found rest h2]
end

mutual
theorem Entry.beforeError_prefix_repair (found : String → Entry) :
    ∀ (entry : Entry), beforeError entry.visits <+: (entry.repair found).visits
  | .file path => by simp [Entry.repair, Entry.visits, beforeError, Visit.isFailed]
  | .unreadable path e => by simp [Entry.visits, beforeError, Visit.isFailed]
  | .lstatErr path e => by simp [Entry.visits, beforeError, Visit.isFailed]
  | .dir path names => by
    have ih := Entries.beforeError_prefix_of_repair found names
    simp only [beforeError] at ih
    simpa [Entry.repair, Entry.visits, beforeError, Visit.isFailed, List.prefix_cons_inj]
      using ih
theorem Entries.beforeError_prefix_of_repair (found : String → Entry) :
    ∀ (names : Entries), beforeError names.visits <+: (names.repair found).visits
  | .nil => by simp [Entries.repair, Entries.visits, beforeError]
  | .cons entry rest => by
    simp only [Entries.repair, Entries.visits]
    by_cases hok : ∀ v ∈ entry.visits, v.isFailed = false
    · rw [beforeError_append_of_ok _ _ hok, Entry.repair_visits_of_ok found entry hok]
      exact (List.prefix_append_right_inj _).mpr (Entries.beforeError_prefix_of_repair found rest)
    · have hex : ∃ v ∈ entry.visits, v.isFailed = true := by
        by_contra hc
        apply hok
        intro v hv
        cases hf : v.isFailed with
        | false => rfl
        | true => exact absurd ⟨v, hv, hf⟩ hc
      rw [beforeError_append_of_failed _ _ hex]
      exact (Entry.beforeError_prefix_repair found entry).trans (List.prefix_append _ _)
end

theorem ToLower_of_ascii (unicode : UnicodeTables) (str : String)
    (h : ∀ c ∈ str.data, c.toNat < 128) : ToLower unicode str = ToLower asciiTable str := by
  unfold ToLower
  congr 1
  apply List.map_congr_left
  intro c hc
  exact unicode.ascii c (h c hc)

theorem mem_filePaths_beforeError (vs : List Visit) (path : String)
    (h : path ∈ filePaths (beforeError vs)) : path ∈ filePaths vs := by
  induction vs with
  | nil => exact h
  | cons v vs ih =>
    cases v with
    | failed p e => simp [beforeError, Visit.isFailed, filePaths] at h
    | dir p =>
      simp only [beforeError, List.takeWhile, Visit.isFailed, Bool.not_false, filePaths] at h ⊢
      exact ih h
    | file p =>
      simp only [beforeError, List.takeWhile, Visit.isFailed, Bool.not_false, filePaths,
        List.mem_cons] at h ⊢
      rcases h with h | h
      · exact Or.inl h
      · exact Or.inr (ih h)

/-- On a tree whose file extensions are ASCII, `TraverseFiles` does the same
under every table as under `asciiTable`: the values of `unicode.ToLower`
outside ASCII play no part. -/
theorem TraverseFiles_of_asciiExts (unicode : UnicodeTables) (tree : Entry)
    (extension : String) (cb : FileCallback T σ) (s : σ) (h : tree.asciiExts = true) :
    TraverseFiles unicode tree extension cb s = TraverseFiles asciiTable tree extension cb s := by
  have hfilter : (filePaths (beforeError tree.visits)).filter (extMatches unicode extension) =
      (filePaths (beforeError tree.visits)).filter (extMatches asciiTable extension) := by
    apply List.filter_congr
    intro path hp
    have hmem := mem_filePaths_beforeError _ _ hp
    simp only [Entry.asciiExts, List.all_eq_true, decide_eq_true_eq] at h
    simp only [extMatches, ToLower_of_ascii unicode (Ext path) (h path hmem)]
  rw [TraverseFiles_eq, TraverseFiles_eq, hfilter]

end WalkLemmas

/-! ## The claims on `TraverseFiles` -/

/-- C1: on a tree whose walk meets no access error, `TraverseFiles` returns
exactly the values of the successful callback runs on the non-directory
entries whose lower-cased extension equals the target, in visit order; the
callback's state ends as after those runs alone, and the callback is run on
those paths and on no other (no directory, no file that does not match), a
failed run adding nothing and not stopping the later ones.  This holds whatever
the table of `unicode.ToLower` is. -/
theorem TraverseFiles_collects_matching_files {T σ : Type} (unicode : UnicodeTables)
    (tree : Entry) (extension : String) (fileCallback : FileCallback T σ) (s : σ)
    (h : ∀ v ∈ tree.visits, v.isFailed = false) :
    Slice.toList (TraverseFiles unicode tree extension fileCallback s).1 =
        (successes fileCallback
          ((filePaths tree.visits).filter (extMatches unicode extension)) s).1 ∧
      (TraverseFiles unicode tree extension fileCallback s).2 =
        (successes fileCallback
          ((filePaths tree.visits).filter (extMatches unicode extension)) s).2 ∧
      (TraverseFiles unicode tree extension (traced fileCallback) ([], s)).2.1 =
        (filePaths tree.visits).filter (extMatches unicode extension) := by
  simp only [TraverseFiles_eq, beforeError_eq_self _ h, Slice.toList_ofAppends,
    successes_traced_log, List.nil_append, and_self]

/-- Witness of C1.  On `sampleTree` the directory `r/album.jpg` and the file
`r/notes.txt` are not passed to the callback, the failure on `r/bad.jpg` adds
nothing, and `r/z.jpg` after it is still processed.  On `accentTree` with the
target `.jpé` and a table that lower-cases `É`, both `r/a.JPÉ` and `r/b.jpé`
are collected. -/
theorem TraverseFiles_collects_matching_files_witness :
    (∀ v ∈ sampleTree.visits, v.isFailed = false) ∧
      Slice.toList (TraverseFiles asciiTable sampleTree ".jpg" pickyCallback 0).1 =
        ["r/A.JPG", "r/album.jpg/c.jpg", "r/z.jpg"] ∧
      (TraverseFiles asciiTable sampleTree ".jpg" (traced pickyCallback) ([], 0)).2.1 =
        ["r/A.JPG", "r/album.jpg/c.jpg", "r/bad.jpg", "r/z.jpg"] ∧
      (∀ v ∈ accentTree.visits, v.isFailed = false) ∧
      Slice.toList (TraverseFiles latin1Table accentTree ".jpé" pathCallback ()).1 =
        ["r/a.JPÉ", "r/b.jpé"] :=
  ⟨by decide,
    (TraverseFiles_collects_matching_files asciiTable sampleTree ".jpg" pickyCallback 0
      (by decide)).1.trans (by decide),
    (TraverseFiles_collects_matching_files asciiTable sampleTree ".jpg" pickyCallback 0
      (by decide)).2.2.trans (by decide),
    by decide,
    (TraverseFiles_collects_matching_files latin1Table accentTree ".jpé" pathCallback ()
      (by decide)).1.trans (by decide)⟩

/-- C5, as stated, fails on `brokenTree`: `r/c.jpg` matches, lies outside the
entry `r/b` on which `lstat` fails and is visited after it, yet the callback is
run on `r/a.jpg` only and the result holds that one value.  The paths and the
target are ASCII, where every table agrees with `asciiTable`
(`TraverseFiles_of_asciiExts`). -/
theorem TraverseFiles_error_stops_whole_walk_counterexample :
    "r/c.jpg" ∈ filePaths (afterError brokenTree.visits) ∧
      extMatches asciiTable ".jpg" "r/c.jpg" = true ∧
      (pathCallback "r/c.jpg" ()).1 = ("r/c.jpg", none) ∧
      TraverseFiles asciiTable brokenTree ".jpg" (traced pathCallback) ([], ()) =
        (some ["r/a.jpg"], (["r/a.jpg"], ())) := by
  decide

/-- C5, amended: an access error stops the whole walk.  When the visits of the
tree are `pre`, then an access error, then `post`, the callback is run on
exactly the matching non-directory entries of `pre`, in order, and the result
is the values of the successful runs among them; nothing in `post` is passed to
the callback, whether inside or outside the branch of the error.  This holds
whatever the table of `unicode.ToLower` is. -/
theorem TraverseFiles_error_stops_whole_walk {T σ : Type} (unicode : UnicodeTables)
    (tree : Entry) (extension : String) (fileCallback : FileCallback T σ) (s : σ)
    (pre post : List Visit) (path err : String)
    (hvisits : tree.visits = pre ++ Visit.failed path err :: post)
    (hpre : ∀ v ∈ pre, v.isFailed = false) :
    (TraverseFiles unicode tree extension (traced fileCallback) ([], s)).2.1 =
        (filePaths pre).filter (extMatches unicode extension) ∧
      Slice.toList (TraverseFiles unicode tree extension fileCallback s).1 =
        (successes fileCallback ((filePaths pre).filter (extMatches unicode extension)) s).1 ∧
      (TraverseFiles unicode tree extension fileCallback s).2 =
        (successes fileCallback
          ((filePaths pre).filter (extMatches unicode extension)) s).2 := by
  simp only [TraverseFiles_eq, hvisits, beforeError_append_failed pre post path err hpre,
    Slice.toList_ofAppends, successes_traced_log, List.nil_append, and_self]

/-- Witness of the amended C5.  On `brokenTree` the walk stops at `r/b` after
`r/a.jpg`; on `brokenAccentTree` with the target `.jpé` and a table that
lower-cases `É`, the callback is run on `r/a.JPÉ` before the walk stops. -/
theorem TraverseFiles_error_stops_whole_walk_witness :
    brokenTree.visits =
        [Visit.dir "r", Visit.file "r/a.jpg"] ++
          Visit.failed "r/b" "permission denied" :: [Visit.file "r/c.jpg"] ∧
      (TraverseFiles asciiTable brokenTree ".jpg" (traced pathCallback) ([], ())).2.1 =
        ["r/a.jpg"] ∧
      Slice.toList (TraverseFiles asciiTable brokenTree ".jpg" pathCallback ()).1 =
        ["r/a.jpg"] ∧
      (TraverseFiles latin1Table brokenAccentTree ".jpé" (traced pathCallback) ([], ())).2.1 =
        ["r/a.JPÉ"] :=
  ⟨by decide,
    (TraverseFiles_error_stops_whole_walk asciiTable brokenTree ".jpg" pathCallback ()
      [Visit.dir "r", Visit.file "r/a.jpg"] [Visit.file "r/c.jpg"] "r/b" "permission denied"
      (by decide) (by decide)).1.trans (by decide),
    (TraverseFiles_error_stops_whole_walk asciiTable brokenTree ".jpg" pathCallback ()
      [Visit.dir "r", Visit.file "r/a.jpg"] [Visit.file "r/c.jpg"] "r/b" "permission denied"
      (by decide) (by decide)).2.1.trans (by decide),
    (TraverseFiles_error_stops_whole_walk latin1Table brokenAccentTree ".jpé" pathCallback ()
      [Visit.dir "r", Visit.file "r/a.JPÉ"] [Visit.file "r/c.jpé"] "r/b" "permission denied"
      (by decide) (by decide)).1.trans (by decide)⟩

/-- C10: `TraverseFiles` returns a slice on every tree and has no error
result.  On a root that cannot be accessed it returns the nil slice without
running the callback.  In general the result is exactly the values of the
successful callback runs on the matching files visited before the first access
error, and it is a prefix of the result on the same tree with its inaccessible
entries replaced by whatever is found there once they can be accessed.  This
holds whatever the table of `unicode.ToLower` is. -/
theorem TraverseFiles_total_prefix_result {T σ : Type} (unicode : UnicodeTables)
    (tree : Entry) (extension : String) (fileCallback : FileCallback T σ) (s : σ) :
    (∀ path err, TraverseFiles unicode (Entry.lstatErr path err) extension fileCallback s =
        (none, s)) ∧
      (∀ path err, TraverseFiles unicode (Entry.unreadable path err) extension fileCallback s =
        (none, s)) ∧
      Slice.toList (TraverseFiles unicode tree extension fileCallback s).1 =
        (successes fileCallback
          ((filePaths (beforeError tree.visits)).filter (extMatches unicode extension)) s).1 ∧
      ∀ found : String → Entry,
        Slice.toList (TraverseFiles unicode tree extension fileCallback s).1 <+:
          Slice.toList (TraverseFiles unicode (tree.repair found) extension fileCallback s).1 := by
  refine ⟨fun path err => rfl, fun path err => rfl, ?_, ?_⟩
  · simp only [TraverseFiles_eq, Slice.toList_ofAppends]
  · intro found
    obtain ⟨rest, hrest⟩ := Entry.beforeError_prefix_repair found tree
    simp only [TraverseFiles_eq, Slice.toList_ofAppends, ← hrest,
      beforeError_append_of_ok _ _ (beforeError_ok tree.visits), filePaths_append,
      List.filter_append, successes_append]
    exact List.prefix_append _ _

/-- Witness of C10 on `brokenAccentTree` with the target `.jpé` and a table
that lower-cases `É`: the walk stops at `r/b` with the value collected on
`r/a.JPÉ`, a prefix of the result on the tree where `r/b` is an ordinary
file. -/
theorem TraverseFiles_total_prefix_result_witness :
    Slice.toList (TraverseFiles latin1Table brokenAccentTree ".jpé" pathCallback ()).1 =
        ["r/a.JPÉ"] ∧
      Slice.toList (TraverseFiles latin1Table (brokenAccentTree.repair Entry.file) ".jpé"
        pathCallback ()).1 = ["r/a.JPÉ", "r/c.jpé"] ∧
      Slice.toList (TraverseFiles latin1Table brokenAccentTree ".jpé" pathCallback ()).1 <+:
        Slice.toList (TraverseFiles latin1Table (brokenAccentTree.repair Entry.file) ".jpé"
          pathCallback ()).1 :=
  ⟨(TraverseFiles_total_prefix_result latin1Table brokenAccentTree ".jpé" pathCallback
      ()).2.2.1.trans (by decide),
    by decide,
    (TraverseFiles_total_prefix_result latin1Table brokenAccentTree ".jpé" pathCallback
      ()).2.2.2 Entry.file⟩

/-! ## The claims on extension matching -/

/-- C2 at its failing inputs: with the target `.JPG` the callback is run neither
on `a.jpg` nor on `a.JPG`, although both extensions equal the target when
letter case is ignored; only the entry's extension is lower-cased before the
comparison.  With the target `.jpg` the file `A.JPG` is matched.  The paths are
ASCII, so this holds for every table of `unicode.ToLower`. -/
theorem TraverseFiles_uppercase_target_matches_nothing (unicode : UnicodeTables) :
    TraverseFiles unicode (Entry.file "a.jpg") ".JPG" (traced pathCallback) ([], ()) =
        (none, ([], ())) ∧
      TraverseFiles unicode (Entry.file "a.JPG") ".JPG" (traced pathCallback) ([], ()) =
        (none, ([], ())) ∧
      TraverseFiles unicode (Entry.file "A.JPG") ".jpg" (traced pathCallback) ([], ()) =
        (some ["A.JPG"], (["A.JPG"], ())) := by
  rw [TraverseFiles_of_asciiExts unicode (Entry.file "a.jpg") _ _ _ (by decide),
    TraverseFiles_of_asciiExts unicode (Entry.file "a.JPG") _ _ _ (by decide),
    TraverseFiles_of_asciiExts unicode (Entry.file "A.JPG") _ _ _ (by decide)]
  decide

/-! ## The claims on `ReadTags` -/

theorem ReadTags_success (fs : FS) (path : String) (openFiles : List String)
    (h : (ReadTags fs path openFiles).1.2 = none) :
    ∃ f x date lat lng, fs.Open path = .ok f ∧ f.Decode = .ok x ∧
      x.DateTime = .ok date ∧ x.LatLong = .ok (lat, lng) ∧
      (ReadTags fs path openFiles).1.1 =
        { Path := path, Filename := Base path, Lat := lat, Lng := lng,
          Altitude := orEmpty (x.Get exifGPSAltitude), Date := date,
          Model := orEmpty (x.Get exifModel),
          PixelXDimension := orEmpty (x.Get exifPixelXDimension),
          PixelYDimension := orEmpty (x.Get exifPixelYDimension) } := by
  unfold ReadTags osOpen at h ⊢
  cases hopen : fs.Open path with
  | error err => simp [hopen] at h
  | ok f =>
    cases hdec : f.Decode with
    | error err => simp [hopen, hdec] at h
    | ok x =>
      cases hdate : x.DateTime with
      | error err => simp [hopen, hdec, hdate] at h
      | ok date =>
        cases hll : x.LatLong with
        | error err => simp [hopen, hdec, hdate, hll] at h
        | ok ll =>
          obtain ⟨lat, lng⟩ := ll
          refine ⟨f, x, date, lat, lng, rfl, hdec, hdate, hll, ?_⟩
          simp only [hdec, hdate, hll]
          cases x.Get exifModel <;> cases x.Get exifPixelXDimension <;>
            cases x.Get exifPixelYDimension <;> cases x.Get exifGPSAltitude <;> rfl

theorem ReadTags_success_of (fs : FS) (path : String) (openFiles : List String)
    (f : File) (x : Exif) (date : Time) (ll : Float64 × Float64)
    (hopen : fs.Open path = .ok f) (hdec : f.Decode = .ok x)
    (hdate : x.DateTime = .ok date) (hll : x.LatLong = .ok ll) :
    (ReadTags fs path openFiles).1.2 = none := by
  obtain ⟨lat, lng⟩ := ll
  simp [ReadTags, osOpen, hopen, hdec, hdate, hll]

theorem ReadTags_path (fs : FS) (path : String) (openFiles : List String) :
    (ReadTags fs path openFiles).1.1.Path = path := by
  cases hopen : fs.Open path with
  | error err => simp only [ReadTags, osOpen, hopen]
  | ok f =>
    cases hdec : f.Decode with
    | error err => simp only [ReadTags, osOpen, hopen, hdec]
    | ok x =>
      cases hdate : x.DateTime with
      | error err =>
        simp only [ReadTags, osOpen, hopen, hdec, hdate]
        cases x.Get exifModel <;> cases x.Get exifPixelXDimension <;>
          cases x.Get exifPixelYDimension <;> rfl
      | ok date =>
        cases hll : x.LatLong with
        | error err =>
          simp only [ReadTags, osOpen, hopen, hdec, hdate, hll]
          cases x.Get exifModel <;> cases x.Get exifPixelXDimension <;>
            cases x.Get exifPixelYDimension <;> cases x.Get exifGPSAltitude <;> rfl
        | ok ll =>
          simp only [ReadTags, osOpen, hopen, hdec, hdate, hll]
          cases x.Get exifModel <;> cases x.Get exifPixelXDimension <;>
            cases x.Get exifPixelYDimension <;> cases x.Get exifGPSAltitude <;> rfl

theorem ReadTags_result_indep (fs : FS) (path : String) (s1 s2 : List String) :
    (ReadTags fs path s1).1 = (ReadTags fs path s2).1 := by
  cases hopen : fs.Open path with
  | error err => simp only [ReadTags, osOpen, hopen]
  | ok f =>
    cases hdec : f.Decode with
    | error err => simp only [ReadTags, osOpen, hopen, hdec]
    | ok x =>
      cases hdate : x.DateTime with
      | error err => simp only [ReadTags, osOpen, hopen, hdec, hdate]
      | ok date =>
        cases hll : x.LatLong <;> simp only [ReadTags, osOpen, hopen, hdec, hdate, hll]

/-- C3: `ReadTags` returns a nil error exactly when the file opens, its
metadata block decodes, and the capture timestamp and the coordinate pair both
decode; the four field lookups do not occur in the condition.  Hence every
record in the result of `TraverseFiles` with the target `.jpg` and `ReadTags`
belongs to a file for which all four steps succeed: a file without capture
date or without coordinates is absent, decodable or not. -/
theorem ReadTags_succeeds_iff_gates_pass (fs : FS) (openFiles : List String) :
    (∀ path, (ReadTags fs path openFiles).1.2 = none ↔
        ∃ f x date ll, fs.Open path = .ok f ∧ f.Decode = .ok x ∧
          x.DateTime = .ok date ∧ x.LatLong = .ok ll) ∧
      ∀ (unicode : UnicodeTables) (tree : Entry) (record : ImageInfo),
        record ∈ Slice.toList (TraverseFiles unicode tree ".jpg" (ReadTags fs) openFiles).1 →
        ∃ f x date ll, fs.Open record.Path = .ok f ∧ f.Decode = .ok x ∧
          x.DateTime = .ok date ∧ x.LatLong = .ok ll := by
  constructor
  · intro path
    constructor
    · intro h
      obtain ⟨f, x, date, lat, lng, h1, h2, h3, h4, _⟩ := ReadTags_success fs path openFiles h
      exact ⟨f, x, date, (lat, lng), h1, h2, h3, h4⟩
    · rintro ⟨f, x, date, ll, h1, h2, h3, h4⟩
      exact ReadTags_success_of fs path openFiles f x date ll h1 h2 h3 h4
  · intro unicode tree record hmem
    rw [TraverseFiles_eq, Slice.toList_ofAppends] at hmem
    obtain ⟨path, _, s1, hcb⟩ := mem_successes _ _ _ _ hmem
    have hpath : record.Path = path := by
      have := ReadTags_path fs path s1
      rw [hcb] at this
      exact this
    have hok : (ReadTags fs path s1).1.2 = none := by rw [hcb]
    obtain ⟨f, x, date, lat, lng, h1, h2, h3, h4, _⟩ := ReadTags_success fs path s1 hok
    rw [hpath]
    exact ⟨f, x, date, (lat, lng), h1, h2, h3, h4⟩

/-- Witness of C3 on `sampleFS`: `ReadTags` succeeds on the file without camera
model, and of the six files of `photoTree`, all with ASCII names, only the two
with date and coordinates are in the result. -/
theorem ReadTags_succeeds_iff_gates_pass_witness :
    (ReadTags sampleFS "r/nomodel.jpg" []).1.2 = none ∧
      (Slice.toList (TraverseFiles asciiTable photoTree ".jpg" (ReadTags sampleFS) []).1).map
        (fun r => r.Path) = ["r/full.jpg", "r/nomodel.jpg"] :=
  ⟨((ReadTags_succeeds_iff_gates_pass sampleFS []).1 "r/nomodel.jpg").mpr
      ⟨⟨.ok noModelExif⟩, noModelExif, 1700000000,
        (4633570863741468672, 4625759767262920704), rfl, rfl, rfl, rfl⟩,
    by decide⟩

/-- C4: when `ReadTags` succeeds, the record has the given path, the base name
of the path, the decoder's timestamp and coordinates, and in each of `Model`,
`PixelXDimension`, `PixelYDimension` and `Altitude` the decoder's string if
that lookup succeeds and the empty string if it fails, each field on its
own. -/
theorem ReadTags_record_fields (fs : FS) (path : String) (openFiles : List String)
    (h : (ReadTags fs path openFiles).1.2 = none) :
    ∃ f x date lat lng, fs.Open path = .ok f ∧ f.Decode = .ok x ∧
      x.DateTime = .ok date ∧ x.LatLong = .ok (lat, lng) ∧
      (ReadTags fs path openFiles).1.1 =
        { Path := path, Filename := Base path, Lat := lat, Lng := lng,
          Altitude := orEmpty (x.Get exifGPSAltitude), Date := date,
          Model := orEmpty (x.Get exifModel),
          PixelXDimension := orEmpty (x.Get exifPixelXDimension),
          PixelYDimension := orEmpty (x.Get exifPixelYDimension) } :=
  ReadTags_success fs path openFiles h

/-- Witness of C4: a file with date and coordinates but no camera model gives a
record with `Model` empty and every other field filled in. -/
theorem ReadTags_record_fields_witness :
    (ReadTags sampleFS "r/nomodel.jpg" []).1.2 = none ∧
      (∃ f x date lat lng, sampleFS.Open "r/nomodel.jpg" = .ok f ∧ f.Decode = .ok x ∧
        x.DateTime = .ok date ∧ x.LatLong = .ok (lat, lng) ∧
        (ReadTags sampleFS "r/nomodel.jpg" []).1.1 =
          { Path := "r/nomodel.jpg", Filename := Base "r/nomodel.jpg", Lat := lat,
            Lng := lng, Altitude := orEmpty (x.Get exifGPSAltitude), Date := date,
            Model := orEmpty (x.Get exifModel),
            PixelXDimension := orEmpty (x.Get exifPixelXDimension),
            PixelYDimension := orEmpty (x.Get exifPixelYDimension) }) ∧
      (ReadTags sampleFS "r/nomodel.jpg" []).1.1 =
        { Path := "r/nomodel.jpg", Filename := "nomodel.jpg", Lat := 4633570863741468672,
          Lng := 4625759767262920704, Altitude := "100/1", Date := 1700000000, Model := "",
          PixelXDimension := "4000", PixelYDimension := "3000" } :=
  ⟨by decide, ReadTags_record_fields sampleFS "r/nomodel.jpg" [] (by decide), by decide⟩

/-- C8, as stated, fails: on each of the four exit paths on which the file was
opened (no metadata block, no date, no coordinates, success) the table of open
files, empty before the call, holds the file's handle after it. -/
theorem ReadTags_closes_file_counterexample :
    (ReadTags sampleFS "r/text.jpg" []).2 = ["r/text.jpg"] ∧
      (ReadTags sampleFS "r/nodate.jpg" []).2 = ["r/nodate.jpg"] ∧
      (ReadTags sampleFS "r/nogps.jpg" []).2 = ["r/nogps.jpg"] ∧
      (ReadTags sampleFS "r/full.jpg" []).2 = ["r/full.jpg"] ∧
      (ReadTags sampleFS "r/full.jpg" []).2 ≠ [] := by
  decide

/-- C8, amended: `ReadTags` never closes the file it opens.  When the open
succeeds, the open files after the call are those before it and the new handle,
on every exit path; when the open fails, they are unchanged. -/
theorem ReadTags_leaves_file_open (fs : FS) (path : String) (openFiles : List String) :
    (∀ f, fs.Open path = .ok f → (ReadTags fs path openFiles).2 = openFiles ++ [path]) ∧
      (∀ err, fs.Open path = .error err → (ReadTags fs path openFiles).2 = openFiles) := by
  constructor
  · intro f hopen
    cases hdec : f.Decode with
    | error err => simp only [ReadTags, osOpen, hopen, hdec]
    | ok x =>
      cases hdate : x.DateTime with
      | error err => simp only [ReadTags, osOpen, hopen, hdec, hdate]
      | ok date =>
        cases hll : x.LatLong <;> simp only [ReadTags, osOpen, hopen, hdec, hdate, hll]
  · intro err hopen
    simp only [ReadTags, osOpen, hopen]

/-- Witness of the amended C8: after a successful call one more file is open,
after a call on a path that cannot be opened none is. -/
theorem ReadTags_leaves_file_open_witness :
    (ReadTags sampleFS "r/full.jpg" ["log"]).2 = ["log"] ++ ["r/full.jpg"] ∧
      (ReadTags sampleFS "r/locked.jpg" ["log"]).2 = ["log"] :=
  ⟨(ReadTags_leaves_file_open sampleFS "r/full.jpg" ["log"]).1 ⟨.ok fullExif⟩ rfl,
    (ReadTags_leaves_file_open sampleFS "r/locked.jpg" ["log"]).2 (.msg "permission denied")
      rfl⟩

/-- C9, as stated, fails on `r/nodate.jpg`: the block decodes and its altitude
lookup succeeds with `100/1`, the timestamp decode fails, and the record that
`ReadTags` returns with the error has an empty `Altitude`. -/
theorem ReadTags_altitude_before_date_counterexample :
    noDateExif.Get exifGPSAltitude = .ok "100/1" ∧
      (ReadTags sampleFS "r/nodate.jpg" []).1.2 = some (.msg "no date") ∧
      (ReadTags sampleFS "r/nodate.jpg" []).1.1.Altitude = "" ∧
      (ReadTags sampleFS "r/nodate.jpg" []).1.1.Altitude ≠ "100/1" := by
  decide

/-- C9, amended: the camera model, pixel width and pixel height lookups come
before the timestamp decode and the altitude lookup after it.  For a file whose
block decodes, a failing timestamp decode makes `ReadTags` return that error
with a record holding the three earlier fields and an empty `Altitude`; when
the timestamp decodes and the coordinates fail, the record returned with the
error holds the altitude and the date as well. -/
theorem ReadTags_altitude_after_date (fs : FS) (path : String) (openFiles : List String)
    (f : File) (x : Exif) (hopen : fs.Open path = .ok f) (hdec : f.Decode = .ok x) :
    (∀ err, x.DateTime = .error err →
        (ReadTags fs path openFiles).1 =
          ({ Path := path, Filename := Base path, Lat := 0, Lng := 0, Altitude := "",
             Date := 0, Model := orEmpty (x.Get exifModel),
             PixelXDimension := orEmpty (x.Get exifPixelXDimension),
             PixelYDimension := orEmpty (x.Get exifPixelYDimension) }, some err)) ∧
      (∀ date err, x.DateTime = .ok date → x.LatLong = .error err →
        (ReadTags fs path openFiles).1 =
          ({ Path := path, Filename := Base path, Lat := 0, Lng := 0,
             Altitude := orEmpty (x.Get exifGPSAltitude), Date := date,
             Model := orEmpty (x.Get exifModel),
             PixelXDimension := orEmpty (x.Get exifPixelXDimension),
             PixelYDimension := orEmpty (x.Get exifPixelYDimension) }, some err)) := by
  constructor
  · intro err hdate
    simp only [ReadTags, osOpen, hopen, hdec, hdate]
    cases x.Get exifModel <;> cases x.Get exifPixelXDimension <;>
      cases x.Get exifPixelYDimension <;> rfl
  · intro date err hdate hll
    simp only [ReadTags, osOpen, hopen, hdec, hdate, hll]
    cases x.Get exifModel <;> cases x.Get exifPixelXDimension <;>
      cases x.Get exifPixelYDimension <;> cases x.Get exifGPSAltitude <;> rfl

/-- Witness of the amended C9 on the files without date and without
coordinates. -/
theorem ReadTags_altitude_after_date_witness :
    (ReadTags sampleFS "r/nodate.jpg" []).1 =
        ({ Path := "r/nodate.jpg", Filename := "nodate.jpg", Lat := 0, Lng := 0,
           Altitude := "", Date := 0, Model := "Canon", PixelXDimension := "4000",
           PixelYDimension := "3000" }, some (.msg "no date")) ∧
      (ReadTags sampleFS "r/nogps.jpg" []).1 =
        ({ Path := "r/nogps.jpg", Filename := "nogps.jpg", Lat := 0, Lng := 0,
           Altitude := "100/1", Date := 1700000000, Model := "Canon",
           PixelXDimension := "4000", PixelYDimension := "3000" }, some (.msg "no GPS")) :=
  ⟨((ReadTags_altitude_after_date sampleFS "r/nodate.jpg" [] ⟨.ok noDateExif⟩ noDateExif
      rfl rfl).1 (.msg "no date") rfl).trans (by decide),
    ((ReadTags_altitude_after_date sampleFS "r/nogps.jpg" [] ⟨.ok noGpsExif⟩ noGpsExif
      rfl rfl).2 1700000000 (.msg "no GPS") rfl rfl).trans (by decide)⟩

/-! ## The claims on the JSON output -/

/-- For a directory whose file extensions are ASCII, `main` does the same under
every table as under `asciiTable`. -/
theorem main_of_asciiExts (unicode : UnicodeTables) (sys : System) (enc : JsonEnc)
    (prog dir : String) (rest : List String) (h : (sys.tree dir).asciiExts = true) :
    main unicode sys enc (prog :: dir :: rest) = main asciiTable sys enc (prog :: dir :: rest) := by
  simp only [main, TraverseFiles_of_asciiExts unicode (sys.tree dir) _ _ _ h]

/-- C6, as stated, fails: for the directory `empty`, which has no entries, and
for the directory `junk`, on whose two `.jpg` files `ReadTags` fails, `main`
writes the text `null` to `outdata.json`, not `[]`.  The paths are ASCII, where
every table agrees with `asciiTable` (`main_of_asciiExts`). -/
theorem main_empty_output_counterexample :
    main asciiTable sampleSystem plainEnc ["exifreader", "empty"] = .wrote "outdata.json" "null" ∧
      main asciiTable sampleSystem plainEnc ["exifreader", "junk"] = .wrote "outdata.json" "null" ∧
      main asciiTable sampleSystem plainEnc ["exifreader", "empty"] ≠ .wrote "outdata.json" "[]" := by
  decide

/-- C6, amended: when `ReadTags` fails on every matching file the walk reaches
(in particular when there is no matching file; whether `ReadTags` fails does
not depend on the files already open), `TraverseFiles` returns the nil slice,
`json.Marshal` encodes it as `null`, and `main` writes the text `null` to
`outdata.json`.  This holds whatever the table of `unicode.ToLower` is. -/
theorem main_writes_null_without_records (unicode : UnicodeTables) (sys : System)
    (enc : JsonEnc) (prog dir : String) (rest : List String)
    (hfail : ∀ path ∈ (filePaths (beforeError (sys.tree dir).visits)).filter
        (extMatches unicode ".jpg"), (ReadTags sys.fs path []).1.2 ≠ none)
    (hwrite : sys.WriteFile "outdata.json" "null" = none) :
    (TraverseFiles unicode (sys.tree dir) ".jpg" (ReadTags sys.fs) []).1 = none ∧
      marshalSlice (marshalImageInfo enc)
        (TraverseFiles unicode (sys.tree dir) ".jpg" (ReadTags sys.fs) []).1 = .ok "null" ∧
      main unicode sys enc (prog :: dir :: rest) = .wrote "outdata.json" "null" := by
  have hnil : (TraverseFiles unicode (sys.tree dir) ".jpg" (ReadTags sys.fs) []).1 = none := by
    have hall : ∀ path ∈ (filePaths (beforeError (sys.tree dir).visits)).filter
        (extMatches unicode ".jpg"), ∀ openFiles, (ReadTags sys.fs path openFiles).1.2 ≠ none := by
      intro path hp openFiles
      rw [ReadTags_result_indep sys.fs path openFiles []]
      exact hfail path hp
    rw [TraverseFiles_eq, successes_all_fail _ _ hall]
    rfl
  refine ⟨hnil, ?_, ?_⟩
  · rw [hnil]; rfl
  · simp only [main, hnil, marshalSlice, hwrite]

/-- Witness of the amended C6 on the directory `junk`. -/
theorem main_writes_null_without_records_witness :
    (TraverseFiles asciiTable (sampleSystem.tree "junk") ".jpg"
        (ReadTags sampleSystem.fs) []).1 = none ∧
      main asciiTable sampleSystem plainEnc ["exifreader", "junk"] =
        .wrote "outdata.json" "null" :=
  ⟨(main_writes_null_without_records asciiTable sampleSystem plainEnc "exifreader" "junk" []
      (by decide) rfl).1,
    (main_writes_null_without_records asciiTable sampleSystem plainEnc "exifreader" "junk" []
      (by decide) rfl).2.2⟩

/-- C7, as stated, fails: the keys of an encoded record are not the names
`path`, `filename`, `latitude`, `longitude`, `altitude`, `capture_date`,
`camera_model`, `pixel_width`, `pixel_height`; the record of `r/full.jpg` is
encoded with the keys of the struct tags. -/
theorem ImageInfo_json_keys_counterexample :
    (ImageInfo.jsonFields plainEnc (ReadTags sampleFS "r/full.jpg" []).1.1).map Prod.fst ≠
        ["path", "filename", "latitude", "longitude", "altitude", "capture_date",
          "camera_model", "pixel_width", "pixel_height"] ∧
      marshalImageInfo plainEnc (ReadTags sampleFS "r/full.jpg" []).1.1 =
        .ok ("\x7b\"path\":\"r/full.jpg\",\"file_name\":\"full.jpg\",\"lat\":0,\"lng\":0," ++
          "\"altitude\":\"100/1\",\"date\":\"t\",\"model\":\"Canon\"," ++
          "\"sizeX\":\"4000\",\"sizeY\":\"3000\"\x7d") := by
  decide

/-- C7, amended: every record is encoded as an object whose keys are exactly
`path`, `file_name`, `lat`, `lng`, `altitude`, `date`, `model`, `sizeX` and
`sizeY`, in this order, the names given by the struct tags of `ImageInfo`. -/
theorem ImageInfo_json_keys (enc : JsonEnc) (r : ImageInfo) :
    (ImageInfo.jsonFields enc r).map Prod.fst =
        ["path", "file_name", "lat", "lng", "altitude", "date", "model", "sizeX", "sizeY"] ∧
      ∀ out, marshalImageInfo enc r = .ok out →
        ∃ lat lng date, enc.float r.Lat = .ok lat ∧ enc.float r.Lng = .ok lng ∧
          enc.time r.Date = .ok date ∧
          out = "\x7b" ++ ",".intercalate
            [ "\"path\":" ++ enc.string r.Path, "\"file_name\":" ++ enc.string r.Filename,
              "\"lat\":" ++ lat, "\"lng\":" ++ lng,
              "\"altitude\":" ++ enc.string r.Altitude, "\"date\":" ++ date,
              "\"model\":" ++ enc.string r.Model,
              "\"sizeX\":" ++ enc.string r.PixelXDimension,
              "\"sizeY\":" ++ enc.string r.PixelYDimension ] ++ "\x7d" := by
  refine ⟨rfl, ?_⟩
  intro out h
  unfold marshalImageInfo ImageInfo.jsonFields at h
  cases hlat : enc.float r.Lat with
  | error err => simp [hlat, jsonMember, encodeAll] at h
  | ok lat =>
    cases hlng : enc.float r.Lng with
    | error err => simp [hlat, hlng, jsonMember, encodeAll] at h
    | ok lng =>
      cases hdate : enc.time r.Date with
      | error err =>
        simp [hlat, hlng, hdate, jsonMember, encodeAll] at h
      | ok date =>
        refine ⟨lat, lng, date, rfl, rfl, rfl, ?_⟩
        simp only [hlat, hlng, hdate, jsonMember, encodeAll, Except.ok.injEq] at h
        rw [← h]
        rfl

end ExifReader
